import Mathlib

/-!
Verification of the word-cloud app (`src/app.py`) against its specification.

Shallow embedding conventions:
* Python strings are modelled as `List Char` (abbreviated `Str`).
* Python floats are modelled as rationals `ℚ`; `round(x, 2)` is modelled
  as round-half-to-even at two decimal places, which is Python's rounding
  rule for `round`.
* External library calls (the wordcloud engine `WordCloud`, the PDF
  extractor `fitz`, the mask directory on disk) are parameters of the
  pipeline: `Renderer`, a `fitzOpen` function, and a `masksDir` function.
* An uncaught Python exception aborts the Streamlit script run and is
  displayed to the user; this is modelled by `Except AppError`, where
  `.error` means the run halted with a reported error and produced no
  further outputs.
-/

/-- Python strings modelled as lists of characters. -/
abbrev Str := List Char

deriving instance DecidableEq for Except

/-- A PIL image: its mode string (for example "L", "RGB", "RGBA") and its
pixel dimensions.  Pixel contents are not needed by any claim. -/
structure Image where
  mode : Str
  w : Nat
  h : Nat
deriving DecidableEq

/-- The numpy array `np.array(img)` hands to the renderer: its shape,
including the number of channels (1 for a single-channel "L" image). -/
structure NpArray where
  h : Nat
  w : Nat
  channels : Nat
deriving DecidableEq

/-- Number of channels of `np.array` for a PIL image of the given mode. -/
def modeChannels (m : Str) : Nat :=
  if m = "L".data then 1
  else if m = "LA".data then 2
  else if m = "RGBA".data then 4
  else 3

/-- `Image.open(...).convert("L")`: conversion to single-channel
grayscale (mode "L"). -/
def convertL (img : Image) : Image :=
  ⟨"L".data, img.w, img.h⟩

/-- `np.array(img)`. -/
def npArray (img : Image) : NpArray :=
  ⟨img.h, img.w, modeChannels img.mode⟩

/-- Errors a run can halt with: a parse error from the PDF extractor, or
an I/O error (missing file) from `Image.open`.  Each carries the message
or path involved. -/
inductive AppError where
  | parseError (msg : Str)
  | ioError (path : Str)
deriving DecidableEq

/-- `"masks/" + shape.lower() + ".png"` (line 55 of app.py). -/
def maskPath (shape : Str) : Str :=
  "masks/".data ++ shape.map Char.toLower ++ ".png".data

/-- `load_mask` (lines 50–58 of app.py).  `uploadedMask` is the sidebar
upload, `shape` the built-in shape selection, `masksDir` the filesystem:
it returns the image stored at a path, or `none` when the file is
missing (in which case `Image.open` raises, modelled as `.error`). -/
def load_mask (uploadedMask : Option Image) (shape : Str)
    (masksDir : Str → Option Image) : Except AppError (Option NpArray) :=
  match uploadedMask with
  | some img => .ok (some (npArray (convertL img)))
  | none =>
    if shape ≠ "None".data then
      match masksDir (maskPath shape) with
      | some img => .ok (some (npArray img))
      | none => .error (.ioError (maskPath shape))
    else
      .ok none

/-- Round-half-to-even to an integer (Python's `round` rule, on the
rational model of floats).  The comparison of the fractional part
`q - ⌊q⌋` with `1/2` is written on the reduced representation
(`2·(num − ⌊q⌋·den)` against `den`) so that the definition evaluates by
kernel reduction; `twice_frac_lt_iff` and `twice_frac_gt_iff` below
restate the tests in terms of the value of `q`. -/
def roundHE (q : ℚ) : ℤ :=
  if 2 * (q.num - q.floor * q.den) < (q.den : ℤ) then q.floor
  else if (q.den : ℤ) < 2 * (q.num - q.floor * q.den) then q.floor + 1
  else if q.floor % 2 = 0 then q.floor else q.floor + 1

/-- Exact multiplication of a rational by a natural number, written via
`mkRat` on the representation so that it evaluates by kernel reduction;
`mulNat_eq` below shows it equals `f * k`. -/
def mulNat (f : ℚ) (k : Nat) : ℚ :=
  mkRat (f.num * k) f.den

/-- Python's `round(x, 2)` on the rational model. -/
def round2 (x : ℚ) : ℚ :=
  (roundHE (x * 100) : ℚ) / 100

/-- One record of `freq_data` (lines 127–134 of app.py).  The displayed
normalized-frequency percentage `round(freq * 100, 2)` is stored exactly
as an integer number of hundredths of a percent, `centis`; the displayed
value is `centis / 100`. -/
structure Row where
  word : Str
  rawCount : Nat
  centis : ℤ
deriving DecidableEq

/-- `raw_counts.get(word, 0)`: dictionary lookup with default 0, the
dictionary modelled as an association list. -/
def lookupD (raw : List (Str × Nat)) (k : Str) : Nat :=
  ((raw.find? (fun p => p.1 == k)).map (·.2)).getD 0

/-- The list comprehension of lines 127–134: one record per entry of the
renderer's word-frequency mapping `wc.words_`, pairing the raw count
(default 0) with the rounded percentage. -/
def buildRows (normalized : List (Str × ℚ)) (raw : List (Str × Nat)) : List Row :=
  normalized.map (fun p => ⟨p.1, lookupD raw p.1, roundHE (mulNat p.2 10000)⟩)

/-- Insertion step of Python's stable `sorted(key=raw count, reverse=True)`:
an element moves past exactly those elements with a strictly larger key,
so elements with equal keys keep their original relative order. -/
def insertDesc (x : Row) : List Row → List Row
  | [] => [x]
  | y :: ys => if x.rawCount < y.rawCount then y :: insertDesc x ys else x :: y :: ys

/-- Python's `sorted(freq_data, key=lambda x: x["Raw Count"], reverse=True)`
(line 137): a stable descending sort by raw count. -/
def sortDesc (l : List Row) : List Row :=
  l.foldr insertDesc []

/-- `freq_data` after line 137: sort by raw count descending, keep the
top 10. -/
def freqData (normalized : List (Str × ℚ)) (raw : List (Str × Nat)) : List Row :=
  (sortDesc (buildRows normalized raw)).take 10

/-- Python's whitespace test for `str.strip()`. -/
def isPySpace (c : Char) : Bool :=
  c == ' ' || c == '\t' || c == '\n' || c == '\r' || c == Char.ofNat 11 || c == Char.ofNat 12

/-- Python's `str.strip()`: remove leading and trailing whitespace. -/
def pyStrip (s : Str) : Str :=
  ((s.dropWhile isPySpace).reverse.dropWhile isPySpace).reverse

/-- The sidebar configuration (lines 22–44 of app.py), immutable per run. -/
structure Config where
  bgColor : Str
  maxWords : Nat
  width : Nat
  height : Nat
  colormap : Str
  fontPath : Option Str
  shape : Str
  uploadedMask : Option Image
deriving DecidableEq

/-- The wordcloud engine, taken as an external collaborator.  It is a
function of the configuration and the text (plus the mask for the
rendered image), which is exactly the assumption that it is
deterministic for fixed input. -/
structure Renderer where
  wordsOf : Config → Str → List (Str × ℚ)
  processText : Config → Str → List (Str × Nat)
  toImage : Config → Str → Option NpArray → Image

/-- Everything a successful generation displays or offers for download
(lines 103–172 of app.py). -/
structure Outputs where
  image : Image
  pngDownload : Image
  table : List Row
  chart : List (Str × Nat)
deriving DecidableEq

/-- The input-source radio control (line 65 of app.py). -/
inductive InputMethod where
  | text
  | pdfUpload
deriving DecidableEq

/-- Text acquisition (lines 67–82 of app.py).  `fitzOpen` models
`fitz.open` followed by per-page `get_text`: on a valid PDF it yields the
list of page texts, on an invalid byte stream it raises (`.error`).
The page texts are concatenated by `"".join`, modelled as a fold. -/
def acquireText (fitzOpen : List Nat → Except Str (List Str))
    (method : InputMethod) (typed : Str) (uploadedPdf : Option (List Nat)) :
    Except AppError Str :=
  match method with
  | .text => .ok typed
  | .pdfUpload =>
    match uploadedPdf with
    | none => .ok []
    | some bytes =>
      match fitzOpen bytes with
      | .error msg => .error (.parseError msg)
      | .ok pages => .ok (pages.foldl (· ++ ·) [])

/-- The generation block (lines 88–172 of app.py): guarded by the button
and `text_input.strip()`, it loads the mask, renders the cloud, and
derives the frequency table and bar-chart data.  `.ok none` means the
guard failed and nothing was produced. -/
def generate (R : Renderer) (masksDir : Str → Option Image) (cfg : Config)
    (pressed : Bool) (text : Str) : Except AppError (Option Outputs) :=
  if pressed ∧ pyStrip text ≠ [] then
    match load_mask cfg.uploadedMask cfg.shape masksDir with
    | .error e => .error e
    | .ok mask =>
      let img := R.toImage cfg text mask
      let rows := freqData (R.wordsOf cfg text) (R.processText cfg text)
      .ok (some ⟨img, img, rows, rows.map (fun r => (r.word, r.rawCount))⟩)
  else
    .ok none

/-- One full script run: acquire the text, then run the generation block. -/
def scriptRun (R : Renderer) (fitzOpen : List Nat → Except Str (List Str))
    (masksDir : Str → Option Image) (cfg : Config) (method : InputMethod)
    (typed : Str) (uploadedPdf : Option (List Nat)) (pressed : Bool) :
    Except AppError (Option Outputs) :=
  match acquireText fitzOpen method typed uploadedPdf with
  | .error e => .error e
  | .ok text => generate R masksDir cfg pressed text

/-- Split a character list at every occurrence of a separator; the
separators themselves are dropped.  `splitOnChar sep l` always has one
more fragment than `l` has separators. -/
def splitOnChar (sep : Char) : Str → List Str
  | [] => [[]]
  | c :: cs =>
    match splitOnChar sep cs with
    | [] => [[]]
    | h :: t => if c = sep then [] :: h :: t else (c :: h) :: t

/-- Decimal digits with explicit fuel, so the definition is structurally
recursive; `fuel ≥ n` suffices. -/
def natDigitsAux : Nat → Nat → List Char
  | 0, n => [Nat.digitChar n]
  | fuel + 1, n =>
    if n < 10 then [Nat.digitChar n]
    else natDigitsAux fuel (n / 10) ++ [Nat.digitChar (n % 10)]

/-- Decimal digits of a natural number, most significant first (the way
pandas prints an integer column entry). -/
def natDigits (n : Nat) : List Char :=
  natDigitsAux n n

/-- Numeric value of a digit character. -/
def digitVal (c : Char) : Nat := c.toNat - 48

/-- Value of a string of decimal digits. -/
def valNat (l : Str) : Nat := l.foldl (fun a c => a * 10 + digitVal c) 0

/-- Read back a non-negative integer field. -/
def parseNat (l : Str) : Option Nat :=
  if l ≠ [] ∧ l.all Char.isDigit then some (valNat l) else none

/-- How pandas prints the float `c / 100` (a value with at most two
decimal places): integer part, then the fractional digits with trailing
zeros dropped but at least one fractional digit (`100.0`, `85.7`,
`85.71`). -/
def decDigits (c : Nat) : Str :=
  natDigits (c / 100) ++ '.' ::
    (if c % 100 = 0 then ['0']
     else if c % 10 = 0 then [Nat.digitChar ((c % 100) / 10)]
     else [Nat.digitChar ((c % 100) / 10), Nat.digitChar (c % 10)])

/-- Printing of the (possibly negative) hundredths value `c / 100`. -/
def serializeDec (c : ℤ) : Str :=
  if c < 0 then '-' :: decDigits (-c).toNat else decDigits c.toNat

/-- Read back a fixed-point field with one or two fractional digits, as
hundredths. -/
def parseDecNat (l : Str) : Option Nat :=
  match splitOnChar '.' l with
  | [ip, fp] =>
    if ip ≠ [] ∧ ip.all Char.isDigit ∧ fp ≠ [] ∧ fp.length ≤ 2 ∧ fp.all Char.isDigit then
      some (valNat ip * 100 + (if fp.length = 1 then 10 * valNat fp else valNat fp))
    else none
  | _ => none

/-- Read back a possibly signed fixed-point field, as hundredths. -/
def parseDec (l : Str) : Option ℤ :=
  match l with
  | [] => none
  | c :: rest =>
    if c = '-' then (parseDecNat rest).map (fun v => -(v : ℤ))
    else (parseDecNat (c :: rest)).map (fun v => (v : ℤ))

/-- One CSV data row as `df_export.to_csv(index=False)` prints it. -/
def serializeRow (r : Row) : Str :=
  r.word ++ ',' :: (natDigits r.rawCount ++ ',' :: serializeDec r.centis)

/-- The CSV header line `Word,Raw Count,Normalized Frequency (%)`. -/
def headerChars : Str := "Word,Raw Count,Normalized Frequency (%)".data

/-- The full exported CSV (lines 147–148 of app.py): the header line and
one line per table row, each line terminated by a newline. -/
def csvContent (rows : List Row) : Str :=
  ((headerChars :: rows.map serializeRow).map (fun l => l ++ ['\n'])).flatten

/-- Read back one CSV data row. -/
def parseRow (l : Str) : Option Row :=
  match splitOnChar ',' l with
  | [w, cs, fs] =>
    match parseNat cs, parseDec fs with
    | some cnt, some cent => some ⟨w, cnt, cent⟩
    | _, _ => none
  | _ => none

/-- Read back the data lines of a CSV, expecting the trailing empty
fragment produced by the final newline. -/
def parseLines : List Str → Option (List Row)
  | [] => none
  | l :: rest =>
    if l = [] ∧ rest = [] then some []
    else
      match parseRow l, parseLines rest with
      | some r, some rs => some (r :: rs)
      | _, _ => none

/-- Read a whole exported CSV file back into table rows (the read-back
direction of the round-trip property; the export side is `csvContent`). -/
def parseCsv (content : Str) : Option (List Row) :=
  match splitOnChar '\n' content with
  | [] => none
  | h :: rest => if h = headerChars then parseLines rest else none

/-- A concrete RGB image used in witnesses. -/
def imgRGB : Image := ⟨"RGB".data, 5, 4⟩

/-- A concrete RGBA image standing for `masks/heart.png` in witnesses. -/
def imgHeart : Image := ⟨"RGBA".data, 3, 2⟩

/-- A concrete masks directory containing only `masks/heart.png`. -/
def dirEx : Str → Option Image :=
  fun p => if p = "masks/heart.png".data then some imgHeart else none

/-- A concrete renderer used in witnesses, behaving as the wordcloud
engine does on the text `"cat cat dog"`. -/
def catDogRenderer : Renderer where
  wordsOf := fun _ _ => [("cat".data, mkRat 1 1), ("dog".data, mkRat 1 2)]
  processText := fun _ _ => [("cat".data, 2), ("dog".data, 1)]
  toImage := fun cfg _ _ => ⟨"RGB".data, cfg.width, cfg.height⟩

/-- A concrete configuration with the default sidebar values. -/
def cfgEx : Config :=
  ⟨"#ffffff".data, 200, 800, 400, "viridis".data, none, "None".data, none⟩

/-- `cfgEx` with the built-in Heart shape selected. -/
def cfgHeart : Config := { cfgEx with shape := "Heart".data }

/-- A concrete PDF extractor: byte stream `[37]` is a valid two-page
document, everything else fails to parse. -/
def fitzOpenEx : List Nat → Except Str (List Str) :=
  fun b => if b = [37] then .ok ["Page one. ".data, "Page two.".data]
           else .error "cannot open broken document".data

/-- A second renderer written differently but agreeing with
`catDogRenderer` pointwise, used to witness determinism. -/
def catDogRenderer2 : Renderer where
  wordsOf := fun _ _ => [("cat".data, mkRat 1 1), ("dog".data, mkRat 1 2)]
  processText := fun _ _ => [("cat".data, 2), ("dog".data, 1)]
  toImage := fun cfg _ _ => ⟨"RGB".data, cfg.width, cfg.height + 0⟩

/-! ### Arithmetic lemmas -/

/-- The representation-level floor agrees with `⌊·⌋`. -/
theorem ratFloor_eq (q : ℚ) : q.floor = ⌊q⌋ :=
  (Rat.floor_def' q).trans Rat.floor_def.symm

/-- A rational equals `q * q.den` on its numerator. -/
theorem num_eq_mul_den (q : ℚ) : (q.num : ℚ) = q * q.den := by
  have hd : ((q.den : ℚ)) ≠ 0 := by
    exact_mod_cast q.pos.ne'
  exact (div_eq_iff hd).mp (Rat.num_div_den q)

/-- The representation-level test `2·(num − a·den) < den` decides whether
`q − a` is below one half. -/
theorem twice_frac_lt_iff (q : ℚ) (a : ℤ) :
    2 * (q.num - a * q.den) < (q.den : ℤ) ↔ q - a < 1/2 := by
  have hd : (0 : ℚ) < (q.den : ℚ) := by exact_mod_cast q.pos
  have hcast : (2 * (q.num - a * q.den) < (q.den : ℤ)) ↔
      ((2 * (q.num - a * q.den) : ℤ) : ℚ) < (((q.den : ℤ)) : ℚ) := Int.cast_lt.symm
  rw [hcast]
  push_cast
  rw [num_eq_mul_den]
  constructor <;> intro h <;> nlinarith [hd]

/-- The mirrored test for `q − a` above one half. -/
theorem twice_frac_gt_iff (q : ℚ) (a : ℤ) :
    (q.den : ℤ) < 2 * (q.num - a * q.den) ↔ 1/2 < q - a := by
  have hd : (0 : ℚ) < (q.den : ℚ) := by exact_mod_cast q.pos
  have hcast : ((q.den : ℤ) < 2 * (q.num - a * q.den)) ↔
      (((q.den : ℤ)) : ℚ) < ((2 * (q.num - a * q.den) : ℤ) : ℚ) := Int.cast_lt.symm
  rw [hcast]
  push_cast
  rw [num_eq_mul_den]
  constructor <;> intro h <;> nlinarith [hd]

/-- Half-even rounding lands on the floor, or on the floor plus one and
then only when the fractional part is at least one half. -/
theorem roundHE_mem (q : ℚ) :
    roundHE q = ⌊q⌋ ∨ (roundHE q = ⌊q⌋ + 1 ∧ 1/2 ≤ q - ⌊q⌋) := by
  unfold roundHE
  simp only [ratFloor_eq]
  split_ifs with h1 h2 h3
  · exact Or.inl rfl
  · exact Or.inr ⟨rfl, le_of_lt ((twice_frac_gt_iff q ⌊q⌋).mp h2)⟩
  · exact Or.inl rfl
  · refine Or.inr ⟨rfl, ?_⟩
    have := (twice_frac_lt_iff q ⌊q⌋).not.mp h1
    exact not_lt.mp this

/-- Half-even rounding of a non-negative rational is non-negative. -/
theorem roundHE_nonneg {q : ℚ} (h : 0 ≤ q) : 0 ≤ roundHE q := by
  have hf : 0 ≤ ⌊q⌋ := Int.floor_nonneg.mpr h
  rcases roundHE_mem q with hc | ⟨hc, _⟩ <;> omega

/-- Half-even rounding never exceeds an integer upper bound of its
argument. -/
theorem roundHE_le {q : ℚ} {B : ℤ} (h : q ≤ (B : ℚ)) : roundHE q ≤ B := by
  have hfb : ⌊q⌋ ≤ B := by
    have := Int.floor_le_floor h
    rwa [Int.floor_intCast] at this
  rcases roundHE_mem q with hc | ⟨hc, hhalf⟩
  · omega
  · have hlt : (⌊q⌋ : ℚ) < q := by
      have h2 : (0 : ℚ) < q - ⌊q⌋ := lt_of_lt_of_le (by norm_num) hhalf
      linarith
    have : (⌊q⌋ : ℚ) < (B : ℚ) := lt_of_lt_of_le hlt h
    have : ⌊q⌋ < B := by exact_mod_cast this
    omega

/-- `mulNat` is multiplication. -/
theorem mulNat_eq (f : ℚ) (k : Nat) : mulNat f k = f * k := by
  unfold mulNat
  rw [Rat.mkRat_eq_div]
  push_cast
  have hd : ((f.den : ℚ)) ≠ 0 := by exact_mod_cast f.pos.ne'
  field_simp
  rw [num_eq_mul_den]
  ring

/-- The stored hundredths value is exactly `round(freq·100, 2)` scaled
by 100. -/
theorem centis_eq_round2 (f : ℚ) :
    ((roundHE (mulNat f 10000) : ℚ)) / 100 = round2 (f * 100) := by
  unfold round2
  have harg : mulNat f 10000 = f * 100 * 100 := by
    rw [mulNat_eq]
    push_cast
    ring
  rw [harg]

/-! ### Stable descending sort lemmas -/

/-- Inserting permutes: the result holds exactly the new element and the
old ones. -/
theorem insertDesc_perm (x : Row) (l : List Row) :
    List.Perm (insertDesc x l) (x :: l) := by
  induction l with
  | nil => exact List.Perm.refl _
  | cons y ys ih =>
    unfold insertDesc
    split
    · exact (ih.cons y).trans (List.Perm.swap x y ys)
    · exact List.Perm.refl _

/-- The sort permutes its input. -/
theorem sortDesc_perm (l : List Row) : List.Perm (sortDesc l) l := by
  induction l with
  | nil => exact List.Perm.refl _
  | cons x xs ih =>
    show List.Perm (insertDesc x (sortDesc xs)) (x :: xs)
    exact (insertDesc_perm x (sortDesc xs)).trans (ih.cons x)

/-- Inserting into a list sorted by descending raw count keeps it sorted. -/
theorem insertDesc_pairwise {x : Row} {l : List Row}
    (h : l.Pairwise (fun a b => b.rawCount ≤ a.rawCount)) :
    (insertDesc x l).Pairwise (fun a b => b.rawCount ≤ a.rawCount) := by
  induction l with
  | nil => simp [insertDesc]
  | cons y ys ih =>
    rcases List.pairwise_cons.mp h with ⟨hy, hys⟩
    unfold insertDesc
    split
    next hlt =>
      refine List.pairwise_cons.mpr ⟨?_, ih hys⟩
      intro z hz
      have hz' := (insertDesc_perm x ys).mem_iff.mp hz
      rcases List.mem_cons.mp hz' with hz' | hz'
      · exact hz' ▸ le_of_lt hlt
      · exact hy z hz'
    next hge =>
      refine List.pairwise_cons.mpr ⟨?_, h⟩
      intro z hz
      rcases List.mem_cons.mp hz with hz | hz
      · exact hz ▸ not_lt.mp hge
      · exact le_trans (hy z hz) (not_lt.mp hge)

/-- The sort's output is sorted by descending raw count. -/
theorem sortDesc_pairwise (l : List Row) :
    (sortDesc l).Pairwise (fun a b => b.rawCount ≤ a.rawCount) := by
  induction l with
  | nil => simp [sortDesc]
  | cons x xs ih => exact insertDesc_pairwise ih

/-- Stability of one insertion step: restricted to any fixed raw count,
inserting either prepends the new element (when it has that count) or
does not disturb the sublist at all, because the element only moves past
strictly larger counts. -/
theorem filter_insertDesc (c : Nat) (x : Row) (l : List Row) :
    (insertDesc x l).filter (fun r => r.rawCount == c) =
      if x.rawCount = c then x :: l.filter (fun r => r.rawCount == c)
      else l.filter (fun r => r.rawCount == c) := by
  induction l with
  | nil =>
    by_cases hx : x.rawCount = c <;> simp [insertDesc, List.filter_cons, hx]
  | cons y ys ih =>
    unfold insertDesc
    split
    next hlt =>
      by_cases hx : x.rawCount = c
      · have hy : ¬ (y.rawCount = c) := by omega
        simp [List.filter_cons, hx, hy, ih]
      · by_cases hy : y.rawCount = c <;> simp [List.filter_cons, hx, hy, ih]
    next hge =>
      by_cases hx : x.rawCount = c <;>
        by_cases hy : y.rawCount = c <;>
          simp [List.filter_cons, hx, hy]

/-- Stability of the sort: restricted to any fixed raw count, the sorted
list is the original list. -/
theorem sortDesc_filter (c : Nat) (l : List Row) :
    (sortDesc l).filter (fun r => r.rawCount == c) =
      l.filter (fun r => r.rawCount == c) := by
  induction l with
  | nil => simp [sortDesc]
  | cons x xs ih =>
    show (insertDesc x (sortDesc xs)).filter (fun r => r.rawCount == c) = _
    rw [filter_insertDesc]
    by_cases hx : x.rawCount = c <;> simp [List.filter_cons, hx, ih]

/-! ### Decimal digit lemmas -/

/-- Reading back a digit character gives the digit. -/
theorem digitVal_digitChar {n : Nat} (h : n < 10) :
    digitVal (Nat.digitChar n) = n := by
  interval_cases n <;> decide

/-- Digit characters are digits. -/
theorem isDigit_digitChar {n : Nat} (h : n < 10) :
    (Nat.digitChar n).isDigit = true := by
  interval_cases n <;> decide

/-- A digit character is not a separator, a dot, a minus sign or a
newline. -/
theorem isDigit_ne {c : Char} (h : c.isDigit = true) :
    c ≠ ',' ∧ c ≠ '\n' ∧ c ≠ '.' ∧ c ≠ '-' := by
  refine ⟨?_, ?_, ?_, ?_⟩ <;> rintro rfl <;> exact absurd h (by decide)

/-- Appending one digit multiplies the value by ten and adds the digit. -/
theorem valNat_append_digit (xs : Str) (c : Char) :
    valNat (xs ++ [c]) = 10 * valNat xs + digitVal c := by
  simp [valNat, List.foldl_append, Nat.mul_comm]

/-- With enough fuel, the digit expansion is non-empty, consists of
digits, and reads back to the number. -/
theorem natDigitsAux_spec :
    ∀ fuel n : Nat, n ≤ fuel →
      natDigitsAux fuel n ≠ [] ∧ (∀ c ∈ natDigitsAux fuel n, c.isDigit = true) ∧
        valNat (natDigitsAux fuel n) = n := by
  intro fuel
  induction fuel with
  | zero =>
    intro n hn
    have : n = 0 := Nat.le_zero.mp hn
    subst this
    exact ⟨by decide, by decide, by decide⟩
  | succ f ih =>
    intro n hn
    by_cases h10 : n < 10
    · refine ⟨by simp [natDigitsAux, h10], ?_, ?_⟩
      · intro c hc
        simp [natDigitsAux, h10] at hc
        exact hc ▸ isDigit_digitChar h10
      · simp [natDigitsAux, h10, valNat, digitVal_digitChar h10]
    · have hdiv : n / 10 ≤ f := by
        have := Nat.div_lt_self (by omega : 0 < n) (by omega : 1 < 10)
        omega
      obtain ⟨hne, hdig, hval⟩ := ih (n / 10) hdiv
      have hmod : n % 10 < 10 := Nat.mod_lt n (by omega)
      refine ⟨?_, ?_, ?_⟩
      · simp [natDigitsAux, h10]
      · intro c hc
        simp only [natDigitsAux, h10, if_false, List.mem_append,
          List.mem_singleton] at hc
        rcases hc with hc | hc
        · exact hdig c hc
        · exact hc ▸ isDigit_digitChar hmod
      · simp only [natDigitsAux, h10, if_false]
        rw [valNat_append_digit, hval, digitVal_digitChar hmod]
        omega

/-- The digit expansion is non-empty. -/
theorem natDigits_ne_nil (n : Nat) : natDigits n ≠ [] :=
  (natDigitsAux_spec n n le_rfl).1

/-- The digit expansion consists of digits. -/
theorem mem_natDigits_isDigit {c : Char} {n : Nat} (h : c ∈ natDigits n) :
    c.isDigit = true :=
  (natDigitsAux_spec n n le_rfl).2.1 c h

/-- The digit expansion reads back to the number. -/
theorem valNat_natDigits (n : Nat) : valNat (natDigits n) = n :=
  (natDigitsAux_spec n n le_rfl).2.2

/-- Parsing inverts printing for the integer column. -/
theorem parseNat_natDigits (n : Nat) : parseNat (natDigits n) = some n := by
  have hall : (natDigits n).all Char.isDigit = true :=
    List.all_eq_true.mpr (fun c hc => mem_natDigits_isDigit hc)
  unfold parseNat
  rw [if_pos ⟨natDigits_ne_nil n, hall⟩, valNat_natDigits]

/-! ### Splitting lemmas -/

/-- The recursive equation of `splitOnChar` on a cons cell. -/
theorem splitOnChar_cons_eq (sep c : Char) (cs : Str) :
    splitOnChar sep (c :: cs) =
      match splitOnChar sep cs with
      | [] => [[]]
      | h :: t => if c = sep then [] :: h :: t else (c :: h) :: t := rfl

/-- Splitting always yields at least one fragment. -/
theorem splitOnChar_ne_nil (sep : Char) (l : Str) : splitOnChar sep l ≠ [] := by
  induction l with
  | nil => simp [splitOnChar]
  | cons c cs ih =>
    rw [splitOnChar_cons_eq]
    rcases hs : splitOnChar sep cs with _ | ⟨h, t⟩
    · exact absurd hs ih
    · show (if c = sep then [] :: h :: t else (c :: h) :: t) ≠ []
      split <;> simp

/-- Splitting at a leading separator produces a leading empty fragment. -/
theorem splitOnChar_sep_cons (sep : Char) (r : Str) :
    splitOnChar sep (sep :: r) = [] :: splitOnChar sep r := by
  rw [splitOnChar_cons_eq]
  rcases hs : splitOnChar sep r with _ | ⟨h, t⟩
  · exact absurd hs (splitOnChar_ne_nil sep r)
  · simp

/-- Splitting cuts at the first separator after a separator-free block. -/
theorem splitOnChar_append (sep : Char) (p r : Str) (hp : sep ∉ p) :
    splitOnChar sep (p ++ sep :: r) = p :: splitOnChar sep r := by
  induction p with
  | nil => simpa using splitOnChar_sep_cons sep r
  | cons c cs ih =>
    have hc : ¬ (c = sep) := fun h => hp (h ▸ List.mem_cons_self c cs)
    have hcs : sep ∉ cs := fun h => hp (List.mem_cons_of_mem c h)
    show splitOnChar sep (c :: (cs ++ sep :: r)) = (c :: cs) :: splitOnChar sep r
    rw [splitOnChar_cons_eq, ih hcs]
    simp [hc]

/-- A separator-free string splits into itself. -/
theorem splitOnChar_no_sep (sep : Char) (p : Str) (hp : sep ∉ p) :
    splitOnChar sep p = [p] := by
  induction p with
  | nil => rfl
  | cons c cs ih =>
    have hc : ¬ (c = sep) := fun h => hp (h ▸ List.mem_cons_self c cs)
    have hcs : sep ∉ cs := fun h => hp (List.mem_cons_of_mem c h)
    rw [splitOnChar_cons_eq, ih hcs]
    simp [hc]

/-- Splitting a block of separator-terminated lines recovers the lines,
plus the empty fragment after the final separator. -/
theorem splitOnChar_flatten (sep : Char) (lines : List Str)
    (h : ∀ l ∈ lines, sep ∉ l) :
    splitOnChar sep ((lines.map (fun l => l ++ [sep])).flatten) =
      lines ++ [[]] := by
  induction lines with
  | nil => rfl
  | cons l ls ih =>
    have hl : sep ∉ l := h l (List.mem_cons_self l ls)
    have hls : ∀ m ∈ ls, sep ∉ m := fun m hm => h m (List.mem_cons_of_mem l hm)
    show splitOnChar sep ((l ++ [sep]) ++ _) = _
    rw [List.append_assoc, List.singleton_append, splitOnChar_append sep l _ hl,
      ih hls]
    rfl

/-! ### CSV printing and parsing lemmas -/

/-- A digit character is never a dot. -/
theorem digitChar_ne_dot {m : Nat} (h : m < 10) : Nat.digitChar m ≠ '.' :=
  (isDigit_ne (isDigit_digitChar h)).2.2.1

/-- Value of a one-digit string. -/
theorem valNat_singleton (c : Char) : valNat [c] = digitVal c := by
  simp [valNat]

/-- Value of a two-digit string. -/
theorem valNat_pair (a b : Char) : valNat [a, b] = 10 * digitVal a + digitVal b := by
  simp [valNat]
  ring

/-- Every character of the fixed-point expansion is a digit or the dot. -/
theorem mem_decDigits {c : Char} {n : Nat} (h : c ∈ decDigits n) :
    c.isDigit = true ∨ c = '.' := by
  unfold decDigits at h
  rcases List.mem_append.mp h with h | h
  · exact Or.inl (mem_natDigits_isDigit h)
  · rcases List.mem_cons.mp h with h | h
    · exact Or.inr h
    · split_ifs at h <;> simp at h
      · exact Or.inl (h ▸ (by decide))
      · exact Or.inl (h ▸ isDigit_digitChar (by omega))
      · rcases h with h | h
        · exact Or.inl (h ▸ isDigit_digitChar (by omega))
        · exact Or.inl (h ▸ isDigit_digitChar (by omega))

/-- The dot does not occur among plain digits. -/
theorem dot_not_mem_natDigits (n : Nat) : '.' ∉ natDigits n :=
  fun h => absurd (mem_natDigits_isDigit h) (by decide)

/-- The comma does not occur among plain digits. -/
theorem comma_not_mem_natDigits (n : Nat) : ',' ∉ natDigits n :=
  fun h => absurd (mem_natDigits_isDigit h) (by decide)

/-- Parsing inverts printing for non-negative fixed-point values. -/
theorem parseDecNat_decDigits (n : Nat) : parseDecNat (decDigits n) = some n := by
  have hd1 : natDigits (n / 100) ≠ [] := natDigits_ne_nil _
  have hd2 : (natDigits (n / 100)).all Char.isDigit = true :=
    List.all_eq_true.mpr (fun c hc => mem_natDigits_isDigit hc)
  have hdot := dot_not_mem_natDigits (n / 100)
  by_cases h0 : n % 100 = 0
  · have hdec : decDigits n = natDigits (n / 100) ++ '.' :: ['0'] := by
      simp [decDigits, h0]
    unfold parseDecNat
    rw [hdec, splitOnChar_append '.' _ _ hdot,
      splitOnChar_no_sep '.' ['0'] (by decide)]
    simp [hd1, hd2, valNat_natDigits, valNat_singleton, digitVal]
    omega
  · by_cases h1 : n % 10 = 0
    · have hfd : ((n % 100) / 10) < 10 := by omega
      have hdec : decDigits n =
          natDigits (n / 100) ++ '.' :: [Nat.digitChar ((n % 100) / 10)] := by
        simp [decDigits, h0, h1]
      have hnotin : '.' ∉ [Nat.digitChar ((n % 100) / 10)] := by
        intro hmem
        simp at hmem
        exact digitChar_ne_dot hfd hmem.symm
      unfold parseDecNat
      rw [hdec, splitOnChar_append '.' _ _ hdot, splitOnChar_no_sep '.' _ hnotin]
      simp [hd1, hd2, valNat_natDigits, valNat_singleton,
        isDigit_digitChar hfd, digitVal_digitChar hfd]
      omega
    · have hfd : ((n % 100) / 10) < 10 := by omega
      have hfd2 : (n % 10) < 10 := by omega
      have hdec : decDigits n = natDigits (n / 100) ++
          '.' :: [Nat.digitChar ((n % 100) / 10), Nat.digitChar (n % 10)] := by
        simp [decDigits, h0, h1]
      have hnotin : '.' ∉ [Nat.digitChar ((n % 100) / 10), Nat.digitChar (n % 10)] := by
        intro hmem
        simp at hmem
        rcases hmem with h | h
        · exact digitChar_ne_dot hfd h.symm
        · exact digitChar_ne_dot hfd2 h.symm
      unfold parseDecNat
      rw [hdec, splitOnChar_append '.' _ _ hdot, splitOnChar_no_sep '.' _ hnotin]
      simp [hd1, hd2, valNat_natDigits, valNat_pair, isDigit_digitChar hfd,
        isDigit_digitChar hfd2, digitVal_digitChar hfd, digitVal_digitChar hfd2]
      omega

/-- The fixed-point expansion starts with a digit. -/
theorem decDigits_head_digit (n : Nat) :
    ∃ d tl, decDigits n = d :: tl ∧ d.isDigit = true := by
  rcases hnd : natDigits (n / 100) with _ | ⟨d, tl⟩
  · exact absurd hnd (natDigits_ne_nil _)
  · have hmem : d ∈ natDigits (n / 100) := by
      rw [hnd]; exact List.mem_cons_self d tl
    refine ⟨d, tl ++ '.' ::
      (if n % 100 = 0 then ['0']
       else if n % 10 = 0 then [Nat.digitChar ((n % 100) / 10)]
       else [Nat.digitChar ((n % 100) / 10), Nat.digitChar (n % 10)]),
      ?_, mem_natDigits_isDigit hmem⟩
    unfold decDigits
    rw [hnd]
    rfl

/-- The recursive equation of `parseDec` on a cons cell. -/
theorem parseDec_cons (c : Char) (rest : Str) :
    parseDec (c :: rest) =
      if c = '-' then (parseDecNat rest).map (fun v => -(v : ℤ))
      else (parseDecNat (c :: rest)).map (fun v => (v : ℤ)) := rfl

/-- Parsing inverts printing for possibly negative fixed-point values. -/
theorem parseDec_serializeDec (z : ℤ) : parseDec (serializeDec z) = some z := by
  by_cases hz : z < 0
  · have hser : serializeDec z = '-' :: decDigits (-z).toNat := by
      simp [serializeDec, hz]
    rw [hser, parseDec_cons, if_pos rfl, parseDecNat_decDigits]
    have hnn : ((-z).toNat : ℤ) = -z := Int.toNat_of_nonneg (by omega)
    simp [hnn]
  · have hser : serializeDec z = decDigits z.toNat := by
      simp [serializeDec, hz]
    obtain ⟨d, tl, hdec, hdig⟩ := decDigits_head_digit z.toNat
    rw [hser, hdec, parseDec_cons, if_neg ((isDigit_ne hdig).2.2.2), ← hdec,
      parseDecNat_decDigits]
    simp [Int.toNat_of_nonneg (not_lt.mp hz)]

/-- Every character printed for the hundredths column is a digit, a dot
or a minus sign. -/
theorem mem_serializeDec {c : Char} {z : ℤ} (h : c ∈ serializeDec z) :
    c.isDigit = true ∨ c = '.' ∨ c = '-' := by
  unfold serializeDec at h
  split_ifs at h
  · rcases List.mem_cons.mp h with h | h
    · exact Or.inr (Or.inr h)
    · rcases mem_decDigits h with h | h
      · exact Or.inl h
      · exact Or.inr (Or.inl h)
  · rcases mem_decDigits h with h | h
    · exact Or.inl h
    · exact Or.inr (Or.inl h)

/-- The comma does not occur in the printed hundredths column. -/
theorem comma_not_mem_serializeDec (z : ℤ) : ',' ∉ serializeDec z := by
  intro h
  rcases mem_serializeDec h with h | h | h
  · exact absurd h (by decide)
  · exact absurd h (by decide)
  · exact absurd h (by decide)

/-- A printed row is never the empty line. -/
theorem serializeRow_ne_nil (r : Row) : serializeRow r ≠ [] := by
  unfold serializeRow
  intro h
  rcases List.append_eq_nil.mp h with ⟨_, h2⟩
  exact List.cons_ne_nil _ _ h2

/-- A printed row contains no newline when the word does not. -/
theorem newline_not_mem_serializeRow {r : Row} (hw : '\n' ∉ r.word) :
    '\n' ∉ serializeRow r := by
  intro h
  unfold serializeRow at h
  rcases List.mem_append.mp h with h | h
  · exact hw h
  · rcases List.mem_cons.mp h with h | h
    · exact absurd h (by decide)
    · rcases List.mem_append.mp h with h | h
      · exact absurd (mem_natDigits_isDigit h) (by decide)
      · rcases List.mem_cons.mp h with h | h
        · exact absurd h (by decide)
        · rcases mem_serializeDec h with h | h | h
          · exact absurd h (by decide)
          · exact absurd h (by decide)
          · exact absurd h (by decide)

/-- Parsing inverts printing for one table row. -/
theorem parseRow_serializeRow (r : Row) (hw : ',' ∉ r.word) :
    parseRow (serializeRow r) = some r := by
  unfold parseRow serializeRow
  rw [splitOnChar_append ',' r.word _ hw,
    splitOnChar_append ',' (natDigits r.rawCount) _ (comma_not_mem_natDigits _),
    splitOnChar_no_sep ',' _ (comma_not_mem_serializeDec _)]
  simp [parseNat_natDigits, parseDec_serializeDec]

/-- Parsing inverts printing for the block of data lines (with the empty
fragment left by the final newline). -/
theorem parseLines_serialized (rows : List Row)
    (h : ∀ r ∈ rows, ',' ∉ r.word) :
    parseLines (rows.map serializeRow ++ [[]]) = some rows := by
  induction rows with
  | nil => rfl
  | cons r rs ih =>
    have hr := h r (List.mem_cons_self r rs)
    have hrs : ∀ x ∈ rs, ',' ∉ x.word := fun x hx => h x (List.mem_cons_of_mem r hx)
    show parseLines (serializeRow r :: (rs.map serializeRow ++ [[]])) = _
    unfold parseLines
    rw [if_neg (fun hand => serializeRow_ne_nil r hand.1),
      parseRow_serializeRow r hr, ih hrs]

/-- Parsing inverts printing for the whole exported CSV. -/
theorem parseCsv_csvContent (rows : List Row)
    (h : ∀ r ∈ rows, ',' ∉ r.word ∧ '\n' ∉ r.word) :
    parseCsv (csvContent rows) = some rows := by
  have hlines : ∀ l ∈ headerChars :: rows.map serializeRow, '\n' ∉ l := by
    intro l hl
    rcases List.mem_cons.mp hl with hl | hl
    · subst hl
      decide
    · rcases List.mem_map.mp hl with ⟨r, hr, hser⟩
      exact hser ▸ newline_not_mem_serializeRow (h r hr).2
  unfold parseCsv csvContent
  rw [splitOnChar_flatten '\n' _ hlines, List.cons_append]
  show (if headerChars = headerChars then
    parseLines (List.map serializeRow rows ++ [[]]) else none) = some rows
  rw [if_pos rfl]
  exact parseLines_serialized rows (fun r hr => (h r hr).1)

/-! ### Pipeline helper lemmas -/

/-- Every table row comes from the record-building comprehension. -/
theorem mem_freqData {normalized : List (Str × ℚ)} {raw : List (Str × Nat)}
    {r : Row} (h : r ∈ freqData normalized raw) :
    r ∈ buildRows normalized raw := by
  unfold freqData at h
  exact (sortDesc_perm _).mem_iff.mp (List.take_subset 10 _ h)

/-- Folding append over the accumulator is flattening. -/
theorem foldl_append_eq_flatten (acc : Str) (pages : List Str) :
    pages.foldl (· ++ ·) acc = acc ++ pages.flatten := by
  induction pages generalizing acc with
  | nil => simp
  | cons p ps ih => simp [ih, List.append_assoc]

/-- The first line of the exported CSV is the header. -/
theorem csv_head_line (rows : List Row) (h : ∀ r ∈ rows, '\n' ∉ r.word) :
    (splitOnChar '\n' (csvContent rows)).head? = some headerChars := by
  have hlines : ∀ l ∈ headerChars :: rows.map serializeRow, '\n' ∉ l := by
    intro l hl
    rcases List.mem_cons.mp hl with hl | hl
    · subst hl
      decide
    · rcases List.mem_map.mp hl with ⟨r, hr, hser⟩
      exact hser ▸ newline_not_mem_serializeRow (h r hr)
  unfold csvContent
  rw [splitOnChar_flatten '\n' _ hlines, List.cons_append]
  rfl

/-! ### Claim theorems -/

/-- C1: the frequency table built after a successful render is the list
of records for the renderer-retained words, sorted by raw count
descending, truncated to at most 10 rows, and stable on ties: restricted
to any fixed raw count, the sorted list keeps the original order of the
renderer's word-frequency mapping. -/
theorem C1_freq_table_sorted_top10_stable (normalized : List (Str × ℚ))
    (raw : List (Str × Nat)) :
    freqData normalized raw = (sortDesc (buildRows normalized raw)).take 10 ∧
    (freqData normalized raw).length ≤ 10 ∧
    (freqData normalized raw).Pairwise (fun a b => b.rawCount ≤ a.rawCount) ∧
    List.Perm (sortDesc (buildRows normalized raw)) (buildRows normalized raw) ∧
    (∀ c : Nat,
      (sortDesc (buildRows normalized raw)).filter (fun r => r.rawCount == c) =
        (buildRows normalized raw).filter (fun r => r.rawCount == c)) := by
  refine ⟨rfl, ?_, ?_, sortDesc_perm _, fun c => sortDesc_filter c _⟩
  · exact List.length_take_le 10 _
  · exact List.Pairwise.sublist (List.take_sublist 10 _) (sortDesc_pairwise _)

/-- C2: with empty or whitespace-only acquired text, pressing the button
produces no outputs and no error; conversely, outputs appear only when
the button was pressed and the stripped text is non-empty. -/
theorem C2_empty_text_noop (R : Renderer)
    (fitzOpen : List Nat → Except Str (List Str))
    (masksDir : Str → Option Image) (cfg : Config) :
    (∀ method typed pdf t, acquireText fitzOpen method typed pdf = .ok t →
      pyStrip t = [] →
      scriptRun R fitzOpen masksDir cfg method typed pdf true = .ok none) ∧
    (∀ pressed text out, generate R masksDir cfg pressed text = .ok (some out) →
      pressed = true ∧ pyStrip text ≠ []) := by
  constructor
  · intro method typed pdf t hacq hstrip
    unfold scriptRun
    rw [hacq]
    show generate R masksDir cfg true t = .ok none
    unfold generate
    rw [if_neg (fun hand => hand.2 hstrip)]
  · intro pressed text out hgen
    unfold generate at hgen
    split_ifs at hgen with hcond
    · exact hcond
    · exact absurd hgen (by simp)

/-- C2 witness: a concrete whitespace-only text yields no outputs. -/
theorem C2_witness :
    scriptRun catDogRenderer fitzOpenEx dirEx cfgEx .text " \t\n ".data none true =
      .ok none :=
  (C2_empty_text_noop catDogRenderer fitzOpenEx dirEx cfgEx).1 .text
    " \t\n ".data none " \t\n ".data rfl (by decide)

/-- C3: an uploaded mask always wins (converted to grayscale), a
selected built-in shape is used only without an upload and when its file
exists, and with neither the loader returns the absence value. -/
theorem C3_mask_precedence :
    (∀ (img : Image) (shape : Str) (dir : Str → Option Image),
      load_mask (some img) shape dir = .ok (some (npArray (convertL img)))) ∧
    (∀ (shape : Str) (dir : Str → Option Image) (img : Image),
      shape ≠ "None".data → dir (maskPath shape) = some img →
      load_mask none shape dir = .ok (some (npArray img))) ∧
    (∀ dir : Str → Option Image, load_mask none "None".data dir = .ok none) := by
  refine ⟨fun img shape dir => rfl, ?_, fun dir => by simp [load_mask]⟩
  intro shape dir img hne hdir
  simp [load_mask, hne, hdir]

/-- C3 witness: concrete instances of all three branches. -/
theorem C3_witness :
    load_mask (some imgRGB) "Heart".data dirEx = .ok (some ⟨4, 5, 1⟩) ∧
    load_mask none "Heart".data dirEx = .ok (some ⟨2, 3, 4⟩) ∧
    load_mask none "None".data dirEx = .ok none := by
  refine ⟨?_, ?_, C3_mask_precedence.2.2 dirEx⟩
  · rw [C3_mask_precedence.1 imgRGB "Heart".data dirEx]
    decide
  · rw [C3_mask_precedence.2.1 "Heart".data dirEx imgHeart (by decide) (by decide)]
    decide

/-- C4: each table row's displayed percentage is the renderer weight
times 100 rounded half-even to two decimals; its raw count is the
raw-count lookup with default 0; and under the renderer's contract that
weights lie in [0, 1], the percentage lies in [0, 100]. -/
theorem C4_row_values (normalized : List (Str × ℚ)) (raw : List (Str × Nat))
    (r : Row) (hr : r ∈ freqData normalized raw) :
    (∃ f : ℚ, (r.word, f) ∈ normalized ∧
      (r.centis : ℚ) / 100 = round2 (f * 100)) ∧
    r.rawCount = lookupD raw r.word ∧
    ((∀ p ∈ normalized, 0 ≤ p.2 ∧ p.2 ≤ 1) →
      0 ≤ (r.centis : ℚ) / 100 ∧ (r.centis : ℚ) / 100 ≤ 100) := by
  obtain ⟨p, hp, hpr⟩ := List.mem_map.mp (mem_freqData hr)
  subst hpr
  refine ⟨⟨p.2, ?_, centis_eq_round2 p.2⟩, rfl, ?_⟩
  · rw [Prod.mk.eta]
    exact hp
  · intro hall
    obtain ⟨h0, h1⟩ := hall p hp
    have hq0 : (0 : ℚ) ≤ mulNat p.2 10000 := by
      rw [mulNat_eq]
      exact mul_nonneg h0 (by norm_num)
    have hq1 : mulNat p.2 10000 ≤ ((10000 : ℤ) : ℚ) := by
      rw [mulNat_eq]
      push_cast
      nlinarith [h1]
    have hr0 : 0 ≤ roundHE (mulNat p.2 10000) := roundHE_nonneg hq0
    have hr1 : roundHE (mulNat p.2 10000) ≤ 10000 := roundHE_le hq1
    constructor
    · apply div_nonneg _ (by norm_num)
      exact_mod_cast hr0
    · rw [div_le_iff₀ (by norm_num : (0 : ℚ) < 100)]
      have hc : ((roundHE (mulNat p.2 10000) : ℤ) : ℚ) ≤ 10000 := by
        exact_mod_cast hr1
      linarith

/-- C4 witness: the bounds hold on the concrete cat/dog table row. -/
theorem C4_witness :
    0 ≤ ((10000 : ℤ) : ℚ) / 100 ∧ ((10000 : ℤ) : ℚ) / 100 ≤ 100 :=
  (C4_row_values [("cat".data, mkRat 1 1), ("dog".data, mkRat 1 2)]
    [("cat".data, 2), ("dog".data, 1)] ⟨"cat".data, 2, 10000⟩ (by decide)).2.2
    (by decide)

/-- C5: the exported CSV starts with the header line
`Word,Raw Count,Normalized Frequency (%)`, has at most 10 data rows, and
parsing it back reconstructs exactly the displayed table rows in order
(words from the renderer's tokenizer contain no comma or newline). -/
theorem C5_csv_roundtrip (normalized : List (Str × ℚ)) (raw : List (Str × Nat))
    (h : ∀ p ∈ normalized, ',' ∉ p.1 ∧ '\n' ∉ p.1) :
    parseCsv (csvContent (freqData normalized raw)) =
      some (freqData normalized raw) ∧
    (splitOnChar '\n' (csvContent (freqData normalized raw))).head? =
      some headerChars ∧
    (freqData normalized raw).length ≤ 10 := by
  have hrows : ∀ r ∈ freqData normalized raw, ',' ∉ r.word ∧ '\n' ∉ r.word := by
    intro r hr
    obtain ⟨p, hp, hpr⟩ := List.mem_map.mp (mem_freqData hr)
    have hword : r.word = p.1 := by rw [← hpr]
    rw [hword]
    exact h p hp
  refine ⟨parseCsv_csvContent _ hrows, ?_, List.length_take_le 10 _⟩
  exact csv_head_line _ (fun r hr => (hrows r hr).2)

/-- C5 witness: the concrete cat/dog table round-trips through its CSV. -/
theorem C5_witness :
    parseCsv (csvContent (freqData [("cat".data, mkRat 1 1), ("dog".data, mkRat 1 2)]
        [("cat".data, 2), ("dog".data, 1)])) =
      some (freqData [("cat".data, mkRat 1 1), ("dog".data, mkRat 1 2)]
        [("cat".data, 2), ("dog".data, 1)]) :=
  (C5_csv_roundtrip [("cat".data, mkRat 1 1), ("dog".data, mkRat 1 2)]
    [("cat".data, 2), ("dog".data, 1)] (by decide)).1

/-- The equation of `acquireText` in document-extraction mode with an
uploaded byte stream. -/
theorem acquireText_pdf_some (fitzOpen : List Nat → Except Str (List Str))
    (typed : Str) (bytes : List Nat) :
    acquireText fitzOpen .pdfUpload typed (some bytes) =
      match fitzOpen bytes with
      | .error msg => .error (.parseError msg)
      | .ok pages => .ok (pages.foldl (· ++ ·) []) := rfl

/-- C6: an invalid document byte stream makes the extraction step halt
the whole run with a reported parse error, before any rendering; no
outputs (and no partial text) are produced. -/
theorem C6_pdf_parse_error (R : Renderer)
    (fitzOpen : List Nat → Except Str (List Str))
    (masksDir : Str → Option Image) (cfg : Config) (typed : Str)
    (pressed : Bool) (bytes : List Nat) (msg : Str)
    (h : fitzOpen bytes = .error msg) :
    scriptRun R fitzOpen masksDir cfg .pdfUpload typed (some bytes) pressed =
      .error (.parseError msg) := by
  have hacq : acquireText fitzOpen .pdfUpload typed (some bytes) =
      .error (.parseError msg) := by
    rw [acquireText_pdf_some, h]
  unfold scriptRun
  rw [hacq]

/-- C6 witness: a concrete broken byte stream halts with the parse
error. -/
theorem C6_witness :
    scriptRun catDogRenderer fitzOpenEx dirEx cfgEx .pdfUpload [] (some [9, 9])
      true = .error (.parseError "cannot open broken document".data) :=
  C6_pdf_parse_error catDogRenderer fitzOpenEx dirEx cfgEx [] true [9, 9]
    "cannot open broken document".data (by decide)

/-- C7: with no upload, a selected built-in shape, and its backing file
missing, the run halts with a reported I/O error naming the missing
path, before rendering. -/
theorem C7_missing_mask_error (R : Renderer)
    (fitzOpen : List Nat → Except Str (List Str))
    (masksDir : Str → Option Image) (cfg : Config) (typed : Str)
    (htext : pyStrip typed ≠ []) (hupl : cfg.uploadedMask = none)
    (hshape : cfg.shape ≠ "None".data)
    (hfile : masksDir (maskPath cfg.shape) = none) :
    scriptRun R fitzOpen masksDir cfg .text typed none true =
      .error (.ioError (maskPath cfg.shape)) := by
  have hlm : load_mask cfg.uploadedMask cfg.shape masksDir =
      .error (.ioError (maskPath cfg.shape)) := by
    rw [hupl]
    unfold load_mask
    rw [if_pos hshape, hfile]
  unfold scriptRun acquireText
  show generate R masksDir cfg true typed = _
  unfold generate
  rw [if_pos ⟨rfl, htext⟩, hlm]

/-- C7 witness: a concrete run with the Heart shape selected and an
empty masks directory. -/
theorem C7_witness :
    scriptRun catDogRenderer fitzOpenEx (fun _ => none) cfgHeart .text
      "cat cat dog".data none true = .error (.ioError "masks/heart.png".data) := by
  rw [C7_missing_mask_error catDogRenderer fitzOpenEx (fun _ => none) cfgHeart
    "cat cat dog".data (by decide) rfl (by decide) rfl]
  decide

/-- C8: in document-extraction mode the acquired text is the
concatenation of all page texts in page order with no separator. -/
theorem C8_pdf_concat (fitzOpen : List Nat → Except Str (List Str))
    (typed : Str) (bytes : List Nat) (pages : List Str)
    (h : fitzOpen bytes = .ok pages) :
    acquireText fitzOpen .pdfUpload typed (some bytes) = .ok pages.flatten := by
  rw [acquireText_pdf_some, h]
  show Except.ok (pages.foldl (fun x1 x2 => x1 ++ x2) []) = _
  rw [foldl_append_eq_flatten]
  rfl

/-- C8 witness: the two concrete pages concatenate with no separator. -/
theorem C8_witness :
    acquireText fitzOpenEx .pdfUpload [] (some [37]) =
      .ok "Page one. Page two.".data := by
  rw [C8_pdf_concat fitzOpenEx [] [37] ["Page one. ".data, "Page two.".data]
    (by decide)]
  decide

/-- C9: for fixed text and configuration the run is a function of the
renderer's behavior at that configuration: two runs whose renderers
agree there produce identical outputs (image and frequency table). -/
theorem C9_deterministic (R1 R2 : Renderer)
    (fitzOpen : List Nat → Except Str (List Str))
    (masksDir : Str → Option Image) (cfg : Config) (method : InputMethod)
    (typed : Str) (pdf : Option (List Nat)) (pressed : Bool)
    (hw : ∀ t, R1.wordsOf cfg t = R2.wordsOf cfg t)
    (hp : ∀ t, R1.processText cfg t = R2.processText cfg t)
    (hi : ∀ t m, R1.toImage cfg t m = R2.toImage cfg t m) :
    scriptRun R1 fitzOpen masksDir cfg method typed pdf pressed =
      scriptRun R2 fitzOpen masksDir cfg method typed pdf pressed := by
  unfold scriptRun
  cases hacq : acquireText fitzOpen method typed pdf with
  | error e => rfl
  | ok text =>
    show generate R1 masksDir cfg pressed text =
      generate R2 masksDir cfg pressed text
    unfold generate
    split_ifs with hcond
    · cases hlm : load_mask cfg.uploadedMask cfg.shape masksDir with
      | error e => rfl
      | ok mask => simp only [hw, hp, hi]
    · rfl

/-- C9 witness: two syntactically different renderers that agree
pointwise give identical runs on the concrete input. -/
theorem C9_witness :
    scriptRun catDogRenderer fitzOpenEx dirEx cfgEx .text "cat cat dog".data
      none true =
    scriptRun catDogRenderer2 fitzOpenEx dirEx cfgEx .text "cat cat dog".data
      none true :=
  C9_deterministic catDogRenderer catDogRenderer2 fitzOpenEx dirEx cfgEx .text
    "cat cat dog".data none true (fun _ => rfl) (fun _ => rfl) (fun _ _ => rfl)

/-- C10: only an uploaded mask is grayscale-converted (one channel); a
built-in shape's image is passed as-is, keeping its own channel count,
so the same picture reaches the renderer with different channel shapes
depending on the route. -/
theorem C10_upload_grayscale_builtin_asis :
    (∀ (img : Image) (shape : Str) (dir : Str → Option Image),
      load_mask (some img) shape dir = .ok (some ⟨img.h, img.w, 1⟩)) ∧
    (∀ (shape : Str) (dir : Str → Option Image) (img : Image),
      shape ≠ "None".data → dir (maskPath shape) = some img →
      load_mask none shape dir =
        .ok (some ⟨img.h, img.w, modeChannels img.mode⟩)) ∧
    (∃ (img : Image) (dir : Str → Option Image),
      load_mask (some img) "Heart".data dir = .ok (some ⟨img.h, img.w, 1⟩) ∧
      load_mask none "Heart".data dir = .ok (some ⟨img.h, img.w, 3⟩)) := by
  refine ⟨fun img shape dir => rfl, ?_, ?_⟩
  · intro shape dir img hne hdir
    simp [load_mask, hne, hdir, npArray]
  · exact ⟨imgRGB, fun _ => some imgRGB, by decide, by decide⟩

/-- C10 witness: concrete channel counts for the two routes. -/
theorem C10_witness :
    load_mask (some imgHeart) "None".data dirEx = .ok (some ⟨2, 3, 1⟩) ∧
    load_mask none "Heart".data dirEx = .ok (some ⟨2, 3, 4⟩) := by
  constructor
  · rw [C10_upload_grayscale_builtin_asis.1 imgHeart "None".data dirEx]
    decide
  · rw [C10_upload_grayscale_builtin_asis.2.1 "Heart".data dirEx imgHeart
      (by decide) (by decide)]
    decide
